import Mathlib

/-
Shallow embedding of pyFTS (common/fts.py, models/multivariate/common.py)
and proofs about its behaviour.

Data points and memberships are modelled as rationals; time series as
lists of integers where only ordering/indexing structure matters.
Python dicts appear as association lists (insertion order = iteration
order, matching CPython semantics relied on by the code).
-/

namespace PyFTS

/-- A fuzzy set as used by FTS.fuzzy: a name and a membership function
over scalar data points (collaborator contract FuzzySet). -/
structure FuzzySet where
  name : String
  membership : Rat → Rat

/-- The running-best record built by FTS.fuzzy:
best = \x7b"fuzzyset": ..., "membership": ...\x7d. -/
structure Best where
  fuzzyset : String
  membership : Rat
deriving DecidableEq, Repr

/-- One iteration of the loop in FTS.fuzzy:
if best["membership"] <= fset.membership(data) then replace best. -/
def fuzzyStep (data : Rat) (best : Best) (fset : FuzzySet) : Best :=
  if best.membership ≤ fset.membership data then
    { fuzzyset := fset.name, membership := fset.membership data }
  else best

/-- FTS.fuzzy (fts.py lines 68-83): scan self.sets in mapping iteration
order, keeping the latest set whose membership is ≥ the running best;
start from the degenerate best (empty name, membership 0.0). -/
def fuzzy (sets : List FuzzySet) (data : Rat) : Best :=
  sets.foldl (fuzzyStep data) { fuzzyset := "", membership := 0 }

/-- Partitioner attached to a multivariate variable: a fuzzy-set mapping
(name to membership function) and the canonical ordered_sets name list. -/
structure MVPartitioner where
  sets : String → Rat → Rat
  ordered_sets : List String

/-- A multivariate variable descriptor: a name and its partitioner. -/
structure MVVariable where
  name : String
  partitioner : MVPartitioner

/-- fuzzyfy_instance (models/multivariate/common.py lines 5-9):
mv = memberships of data_point over ordered_sets (in order);
ix = np.argwhere(mv > alpha_cut) flattened (ascending index order);
return [(var.name, ordered_sets[i]) for i in ix]. -/
def fuzzyfy_instance (data_point : Rat) (var : MVVariable) (alpha_cut : Rat) :
    List (String × String) :=
  let mv := var.partitioner.ordered_sets.map
    (fun key => var.partitioner.sets key data_point)
  let ix := (List.range mv.length).filter (fun i => alpha_cut < mv.getD i 0)
  ix.map (fun i => (var.name, var.partitioner.ordered_sets.getD i ""))

/-- A data transformation collaborator (common.Transformations contract):
a forward operation and an inverse operation, each taking the data and a
per-stage parameter. Data has type α, parameters type β. -/
structure Transformation (α β : Type) where
  apply : α → β → α
  inverse : α → β → α

/-- The loop `for c, t in enumerate(reversed(self.transformations)):
ndata = t.inverse(data, params[c], kwargs)` of
apply_inverse_transformations. The third explicit argument is the
current ndata binding; the body reads the ORIGINAL data argument, not
ndata. A params slot beyond the list end is defaulted to dflt (Python
would raise IndexError; all uses here have full-length params). -/
def invTransLoop {α β : Type} (data : α) (ps : List β) (dflt : β) :
    Nat → List (Transformation α β) → α → α
  | _, [], nd => nd
  | c, t :: ts, _ =>
    invTransLoop data ps dflt (c + 1) ts (t.inverse data (ps.getD c dflt))

/-- FTS.apply_inverse_transformations (fts.py lines 464-483): when
transformations are configured, run the enumerate(reversed(...)) loop
and return its final ndata; with zero transformations return data
unchanged. When params is absent it defaults to one dflt (None) slot
per transformation; the slot for stage c of the reversed traversal is
params[c]. -/
def apply_inverse_transformations {α β : Type} (ts : List (Transformation α β))
    (dflt : β) (data : α) (params : Option (List β)) : α :=
  if 0 < ts.length then
    let ps := params.getD (ts.map (fun _ => dflt))
    invTransLoop data ps dflt 0 ts.reverse data
  else data

/-- Modelled from the spec (the reading asserted by claim C1): the
inverse PIPELINE loop, in which stage c of the reversed traversal
consumes the PREVIOUS stage's result, with parameter params[c]. -/
def invPipeLoop {α β : Type} (ps : List β) (dflt : β) :
    Nat → List (Transformation α β) → α → α
  | _, [], nd => nd
  | c, t :: ts, nd =>
    invPipeLoop ps dflt (c + 1) ts (t.inverse nd (ps.getD c dflt))

/-- Modelled from the spec: apply_inverse_transformations as the claim
describes it — each inverse in reverse registration order consuming
the previous stage's result. Compared against the source definition. -/
def apply_inverse_transformations_claim {α β : Type}
    (ts : List (Transformation α β)) (dflt : β) (data : α)
    (params : Option (List β)) : α :=
  if 0 < ts.length then
    let ps := params.getD (ts.map (fun _ => dflt))
    invPipeLoop ps dflt 0 ts.reverse data
  else data

/-- A rule group (FLRG collaborator contract): its right-hand side,
whose cardinality is the group's own size measure (len of the group). -/
structure FLRG where
  rhs : List String
deriving DecidableEq, Repr

/-- FTS.__len__ (fts.py lines 501-507): len(self.flrgs), the number of
keys in the rule-group mapping. -/
def fts_len (flrgs : List (String × FLRG)) : Nat := flrgs.length

/-- FTS.len_total (fts.py lines 509-515): sum([len(k) for k in
self.flrgs]). Iterating a dict yields its KEYS, so this sums the
lengths of the key strings, not the sizes of the groups. -/
def len_total (flrgs : List (String × FLRG)) : Nat :=
  (flrgs.map (fun kv => kv.fst.length)).sum

/-- Modelled from the spec: the total-size measure the spec describes,
summing each rule group's own size measure (its RHS cardinality) over
all groups. Compared against the source definition. -/
def len_total_claim (flrgs : List (String × FLRG)) : Nat :=
  (flrgs.map (fun kv => kv.snd.rhs.length)).sum

/-- Python range(start, stop, step) for step ≥ 1: the values start,
start + step, ... that are < stop, in increasing order. -/
def pyRange (start stop step : Nat) : List Nat :=
  (List.range ((stop - start + step - 1) / step)).map (fun i => start + i * step)

/-- One training window of batched FTS.fit (fts.py line 355):
data[ct - order : ct + batch_size]. Python slices clamp at the data
end; ct ≥ order always holds so the lower bound never underflows. -/
def fit_window (data : List Int) (order batch_size ct : Nat) : List Int :=
  (data.drop (ct - order)).take (ct + batch_size - (ct - order))

/-- FTS.fit batching (fts.py lines 337-365), non-distributed path with
num_batches supplied: batch_size = int(n / num_batches), offsets ct in
range(self.order, n, batch_size); the result lists, in increasing
offset order, the windows on which self.train is called (one train
call per element, in list order). -/
def fit_windows (data : List Int) (order num_batches : Nat) : List (List Int) :=
  (pyRange order data.length (data.length / num_batches)).map
    (fit_window data order (data.length / num_batches))

/-- Python tail slice data[-k:]: for k = 0 this is data[0:], the whole
list; otherwise the last k elements (the whole list when k exceeds the
length). -/
def pyTail (l : List Int) (k : Nat) : List Int :=
  if k = 0 then l else l.drop (l.length - k)

/-- The loop of FTS.forecast_ahead (fts.py lines 201-226): for each of
steps iterations, tmp = forecast(data[-max_lag:]); the last element is
taken when the one-step result is a sequence (one-step results are
modelled as lists, the common case; an empty result, an IndexError in
Python, is defaulted to 0); tmp is appended to both ret and data. -/
def forecast_ahead_loop (fc : List Int → List Int) (max_lag : Nat) :
    Nat → List Int → List Int → List Int × List Int
  | 0, ret, data => (ret, data)
  | steps + 1, ret, data =>
    let tmp := (fc (pyTail data max_lag)).getLastD 0
    forecast_ahead_loop fc max_lag steps (ret ++ [tmp]) (data ++ [tmp])

/-- FTS.forecast_ahead: run the loop with an empty initial output
list; returns (ret, final working list). The second component models
the caller's list object, which the loop extends in place (an ndarray
input is first converted to a fresh list and the caller's array is
then not mutated). -/
def forecast_ahead (fc : List Int → List Int) (max_lag : Nat)
    (data : List Int) (steps : Nat) : List Int × List Int :=
  forecast_ahead_loop fc max_lag steps [] data

/-- Symbolic record of which forecasting operation FTS.predict invokes
and with which arguments. forecast_ahead_multivariate_nosteps records
the call at fts.py line 143, which passes the preprocessed data but
omits the steps positional argument that the method signature at line
250 requires (a TypeError when executed). -/
inductive ForecastCall
  | forecast (data : List Int)
  | forecast_interval (data : List Int)
  | forecast_distribution (data : List Int)
  | forecast_multivariate (data : List Int)
  | forecast_ahead (data : List Int) (steps : Int)
  | forecast_ahead_interval (data : List Int) (steps : Int)
  | forecast_ahead_distribution (data : List Int) (steps : Int)
  | forecast_ahead_multivariate (data : List Int) (steps : Int)
  | forecast_ahead_multivariate_nosteps (data : List Int)
deriving DecidableEq, Repr

/-- The failure outcomes of the modelled predict path: invalidType is
the ValueError at fts.py line 146 for an unrecognized type option;
undefinedResult is the UnboundLocalError when line 157 reads ret and
no dispatch branch assigned it. -/
inductive PredictError
  | invalidType
  | undefinedResult
deriving DecidableEq, Repr

/-- The four recognized values of the type option (fts.py line 145). -/
def recognized_types : List String :=
  ["point", "interval", "distribution", "multivariate"]

/-- One-step dispatch (fts.py lines 126-134): the value assigned to
ret when steps_ahead is None or 1; none when no branch matches. -/
def dispatch_one (ty : String) (ndata : List Int) : Option ForecastCall :=
  if ty = "point" then some (.forecast ndata)
  else if ty = "interval" then some (.forecast_interval ndata)
  else if ty = "distribution" then some (.forecast_distribution ndata)
  else if ty = "multivariate" then some (.forecast_multivariate ndata)
  else none

/-- Multi-step dispatch (fts.py lines 135-143) for steps_ahead > 1.
Line 143 invokes forecast_ahead_multivariate without passing
steps_ahead as its steps argument. -/
def dispatch_ahead (ty : String) (steps_ahead : Int) (ndata : List Int) :
    Option ForecastCall :=
  if ty = "point" then some (.forecast_ahead ndata steps_ahead)
  else if ty = "interval" then some (.forecast_ahead_interval ndata steps_ahead)
  else if ty = "distribution" then some (.forecast_ahead_distribution ndata steps_ahead)
  else if ty = "multivariate" then some (.forecast_ahead_multivariate_nosteps ndata)
  else none

/-- FTS.predict (fts.py lines 104-159) on the non-distributed,
non-multivariate path, up to the forecasting invocation recorded
symbolically: preprocessing (apply_transformations plus the optional
UoD clip, lines 107-110) is abstracted by pre; type defaults to point;
an unrecognized type raises ValueError at lines 145-146 before ret is
used; when no dispatch branch assigned ret (steps_ahead explicitly
set but neither 1 nor greater than 1), the read of ret during
postprocessing at line 157 is an UnboundLocalError, modelled as
undefinedResult. -/
def predict (pre : List Int → List Int) (ty : Option String)
    (steps_ahead : Option Int) (data : List Int) :
    Except PredictError ForecastCall :=
  let ndata := pre data
  let t := ty.getD "point"
  let ret : Option ForecastCall :=
    match steps_ahead with
    | none => dispatch_one t ndata
    | some s =>
      if s = 1 then dispatch_one t ndata
      else if 1 < s then dispatch_ahead t s ndata
      else none
  if recognized_types.contains t then
    match ret with
    | none => .error .undefinedResult
    | some c => .ok c
  else .error .invalidType

/-- Helper: the running best's membership stays below any bound that
dominates the initial best and every scanned set. -/
lemma fuzzy_foldl_le (d m : Rat) :
    ∀ (l : List FuzzySet) (b : Best), (∀ g ∈ l, g.membership d ≤ m) →
      b.membership ≤ m → (l.foldl (fuzzyStep d) b).membership ≤ m := by
  intro l
  induction l with
  | nil => intro b _ hb; simpa using hb
  | cons g l ih =>
    intro b hl hb
    simp only [List.foldl_cons]
    apply ih
    · intro x hx; exact hl x (List.mem_cons_of_mem _ hx)
    · unfold fuzzyStep
      split
      · exact hl g (List.mem_cons_self _ _)
      · exact hb

/-- Helper: sets whose membership is strictly below the running best
never replace it. -/
lemma fuzzy_foldl_keep (d : Rat) :
    ∀ (l : List FuzzySet) (b : Best),
      (∀ g ∈ l, g.membership d < b.membership) →
      l.foldl (fuzzyStep d) b = b := by
  intro l
  induction l with
  | nil => intro b _; rfl
  | cons g l ih =>
    intro b hl
    have hg : g.membership d < b.membership := hl g (List.mem_cons_self _ _)
    simp only [List.foldl_cons]
    have hstep : fuzzyStep d b g = b := by
      unfold fuzzyStep
      rw [if_neg (not_le.mpr hg)]
    rw [hstep]
    exact ih b (fun x hx => hl x (List.mem_cons_of_mem _ hx))

/-- C5: FTS.fuzzy returns the degenerate best (empty name, membership
0.0) when no sets are configured; and whenever the set mapping scans as
pre ++ [f] ++ post with f of nonnegative membership dominating every
set in pre (ties allowed, f being scanned later) and strictly
dominating every set in post, the result is f's name and membership —
the later-scanned set wins ties because the comparison is
greater-or-equal against the running best. -/
theorem C5_fuzzy_max_membership (d : Rat) :
    fuzzy [] d = { fuzzyset := "", membership := 0 }
    ∧ ∀ (pre post : List FuzzySet) (f : FuzzySet),
        0 ≤ f.membership d →
        (∀ g ∈ pre, g.membership d ≤ f.membership d) →
        (∀ g ∈ post, g.membership d < f.membership d) →
        fuzzy (pre ++ f :: post) d
          = { fuzzyset := f.name, membership := f.membership d } := by
  constructor
  · rfl
  · intro pre post f hf hpre hpost
    have hb : (pre.foldl (fuzzyStep d) { fuzzyset := "", membership := 0 }).membership
        ≤ f.membership d := fuzzy_foldl_le d (f.membership d) pre _ hpre hf
    have hstep : fuzzyStep d (pre.foldl (fuzzyStep d) { fuzzyset := "", membership := 0 }) f
        = { fuzzyset := f.name, membership := f.membership d } := by
      unfold fuzzyStep
      exact if_pos hb
    show (pre ++ f :: post).foldl (fuzzyStep d) { fuzzyset := "", membership := 0 }
        = { fuzzyset := f.name, membership := f.membership d }
    rw [List.foldl_append, List.foldl_cons, hstep]
    exact fuzzy_foldl_keep d post _ hpost

/-- Witness for C5 at a concrete tie: sets A and B both have
membership 1 at the scanned point, C has membership 0; the later of
the tied sets (B) is returned. -/
theorem C5_fuzzy_max_membership_witness :
    fuzzy [⟨"A", fun _ => 1⟩, ⟨"B", fun _ => 1⟩, ⟨"C", fun _ => 0⟩] 5
      = { fuzzyset := "B", membership := 1 } := by
  have h := (C5_fuzzy_max_membership 5).2
    [⟨"A", fun _ => 1⟩] [⟨"C", fun _ => 0⟩] ⟨"B", fun _ => 1⟩
    (by norm_num)
    (by intro g hg; simp at hg; subst hg; norm_num)
    (by intro g hg; simp at hg; subst hg; norm_num)
  simpa using h

/-- Helper for C8: the index-based selection over range/getD used by
fuzzyfy_instance coincides with a direct filter over the name list. -/
lemma range_filter_getD (name : String) (f : String → Rat) (a : Rat) :
    ∀ os : List String,
      ((List.range (os.map f).length).filter
          (fun i => a < (os.map f).getD i 0)).map
          (fun i => (name, os.getD i ""))
        = (os.filter (fun key => a < f key)).map (fun key => (name, key)) := by
  intro os
  induction os using List.reverseRecOn with
  | nil => rfl
  | append_singleton os k ih =>
    have hm : (os ++ [k]).map f = os.map f ++ [f k] := by simp
    have hlen : ((os ++ [k]).map f).length = (os.map f).length + 1 := by simp
    have hlos : (os.map f).length = os.length := by simp
    rw [hlen, List.range_succ, List.filter_append, List.map_append]
    have hfilter : (List.range (os.map f).length).filter
        (fun i => decide (a < ((os ++ [k]).map f).getD i 0))
        = (List.range (os.map f).length).filter
          (fun i => decide (a < (os.map f).getD i 0)) := by
      apply List.filter_congr
      intro i hi
      rw [List.mem_range] at hi
      rw [hm, List.getD_append _ _ _ _ hi]
    have hmap : ∀ l : List Nat, ((List.range (os.map f).length).filter
          (fun i => decide (a < (os.map f).getD i 0)) = l) →
        l.map (fun i => (name, (os ++ [k]).getD i ""))
        = l.map (fun i => (name, os.getD i "")) := by
      intro l hl
      apply List.map_congr_left
      intro i hi
      rw [← hl] at hi
      have hi2 : i < os.length := by
        have h3 := List.mem_range.mp (List.mem_of_mem_filter hi)
        rwa [hlos] at h3
      rw [List.getD_append _ _ _ _ hi2]
    have hk1 : ((os ++ [k]).map f).getD (os.map f).length 0 = f k := by
      rw [hm, List.getD_eq_getElem?_getD, List.getElem?_concat_length]
      rfl
    have hk2 : (os ++ [k]).getD (os.map f).length "" = k := by
      rw [hlos, List.getD_eq_getElem?_getD, List.getElem?_concat_length]
      rfl
    rw [hfilter, hmap _ rfl, ih, List.filter_append, List.map_append]
    simp only [List.filter_cons, List.filter_nil, hk1, hk2]
    by_cases hfk : a < f k
    · simp [hfk, hk2]
    · simp [hfk]

/-- C8: fuzzyfy_instance returns exactly the (variable name, set name)
pairs whose membership of the observation is strictly greater than
alpha_cut, in ordered_sets order; in particular the result is empty
when no membership exceeds the threshold. -/
theorem C8_fuzzyfy_instance_filter (d : Rat) (var : MVVariable) (a : Rat) :
    fuzzyfy_instance d var a
      = (var.partitioner.ordered_sets.filter
          (fun key => a < var.partitioner.sets key d)).map
          (fun key => (var.name, key)) := by
  unfold fuzzyfy_instance
  exact range_filter_getD var.name (fun key => var.partitioner.sets key d) a
    var.partitioner.ordered_sets

/-- Helper: the enumerate(reversed(...)) loop of
apply_inverse_transformations returns the last iteration's value, the
inverse of the final listed transformation applied to the original
data with the parameter slot indexed by the final position. -/
lemma invTransLoop_append_singleton {α β : Type} (data : α) (ps : List β) (dflt : β) :
    ∀ (l : List (Transformation α β)) (t : Transformation α β) (c : Nat) (nd : α),
      invTransLoop data ps dflt c (l ++ [t]) nd
        = t.inverse data (ps.getD (c + l.length) dflt) := by
  intro l
  induction l with
  | nil => intro t c nd; simp [invTransLoop]
  | cons u l ih =>
    intro t c nd
    simp only [List.cons_append, invTransLoop]
    rw [List.append_eq, ih]
    have hc : c + 1 + l.length = c + (u :: l).length := by
      simp only [List.length_cons]
      omega
    rw [hc]

/-- A concrete transformation whose inverse adds one (the inverse of a
differencing-style step). Used as first registered transformation. -/
def tSub : Transformation Int Unit :=
  { apply := fun d _ => d - 1, inverse := fun d _ => d + 1 }

/-- A concrete transformation whose inverse doubles (the inverse of a
halving-style step). Used as second registered transformation. -/
def tHalf : Transformation Int Unit :=
  { apply := fun d _ => d / 2, inverse := fun d _ => d * 2 }

/-- C1 counterexample: with the two transformations [tSub, tHalf]
registered and input 1, the claimed inverse pipeline (tHalf's inverse
first, tSub's inverse consuming its result) yields (1 * 2) + 1 = 3,
but the source function yields 1 + 1 = 2: each inverse call in the
loop consumes the ORIGINAL input, and only the final call's value (the
first-registered transformation's inverse of the input) is returned. -/
theorem C1_apply_inverse_transformations_counterexample :
    apply_inverse_transformations [tSub, tHalf] () (1 : Int) none = 2
    ∧ apply_inverse_transformations_claim [tSub, tHalf] () (1 : Int) none = 3
    ∧ apply_inverse_transformations [tSub, tHalf] () (1 : Int) none
        ≠ apply_inverse_transformations_claim [tSub, tHalf] () (1 : Int) none := by
  refine ⟨rfl, rfl, by decide⟩

/-- C1 amended: with zero transformations the input is returned
unchanged; with transformations t :: rest configured, the inverses are
invoked in reverse registration order with parameter slot params[c]
for stage c of the reversed traversal, but every inverse call consumes
the ORIGINAL input rather than the previous stage's result, so the
returned value is the final call's result: the first-registered
transformation's inverse of the input with parameter slot
params[n-1]. -/
theorem C1_apply_inverse_transformations_amended {α β : Type}
    (dflt : β) (data : α) (params : Option (List β)) :
    (apply_inverse_transformations ([] : List (Transformation α β)) dflt data params
        = data)
    ∧ ∀ (t : Transformation α β) (rest : List (Transformation α β)),
        apply_inverse_transformations (t :: rest) dflt data params
          = t.inverse data
              ((params.getD ((t :: rest).map (fun _ => dflt))).getD rest.length dflt) := by
  constructor
  · rfl
  · intro t rest
    show (if 0 < (t :: rest).length then
        invTransLoop data (params.getD ((t :: rest).map (fun _ => dflt))) dflt 0
          (t :: rest).reverse data
      else data)
      = t.inverse data
          ((params.getD ((t :: rest).map (fun _ => dflt))).getD rest.length dflt)
    rw [if_pos (by simp), List.reverse_cons, invTransLoop_append_singleton]
    simp

/-- C2: the code contradicts its documented total-size measure. For
the rule-group mapping with the single key "AB" bound to a group of
RHS cardinality 3, len_total returns 2 — iterating the mapping yields
its KEYS, so the key string's length is summed — while the documented
and claimed sum of rule-group size measures is 3. The rule-group
count is 1, as claimed. -/
theorem C2_len_total_bug :
    len_total [("AB", { rhs := ["x", "y", "z"] })] = 2
    ∧ len_total_claim [("AB", { rhs := ["x", "y", "z"] })] = 3
    ∧ len_total [("AB", { rhs := ["x", "y", "z"] })]
        ≠ len_total_claim [("AB", { rhs := ["x", "y", "z"] })]
    ∧ fts_len [("AB", { rhs := ["x", "y", "z"] })] = 1 := by
  refine ⟨rfl, rfl, by decide, rfl⟩

/-- Helper: getD of a mapped list at an in-range index. -/
lemma getD_map_of_lt {γ δ : Type} (f : γ → δ) (l : List γ) (k : Nat)
    (hk : k < l.length) (d : δ) (d0 : γ) :
    (l.map f).getD k d = f (l.getD k d0) := by
  rw [List.getD_eq_getElem?_getD, List.getD_eq_getElem?_getD, List.getElem?_map,
    List.getElem?_eq_getElem hk]
  rfl

/-- Helper: the number of offsets Python range(start, stop, step)
produces for a positive step. -/
lemma pyRange_length (start stop step : Nat) :
    (pyRange start stop step).length = (stop - start + step - 1) / step := by
  simp [pyRange]

/-- Helper: the k-th offset of Python range(start, stop, step). -/
lemma pyRange_getD (start stop step k : Nat)
    (hk : k < (stop - start + step - 1) / step) :
    (pyRange start stop step).getD k 0 = start + k * step := by
  unfold pyRange
  rw [getD_map_of_lt _ _ _ (by simpa using hk) 0 0]
  rw [List.getD_eq_getElem?_getD, List.getElem?_range hk]
  rfl

/-- A concrete integer series 0, 1, ..., n-1 used as training data in
concrete instances. -/
def intSeries (n : Nat) : List Int := (List.range n).map Int.ofNat

/-- C3 counterexample: fit with num_batches = 5 on data of length 12
with order 1 trains on 6 windows, not 5: batch_size = floor(12/5) = 2
and the offsets range(1, 12, 2) = [1, 3, 5, 7, 9, 11] number
ceil((12 - 1)/2) = 6, so the data is not split into num_batches
windows. -/
theorem C3_fit_windows_counterexample :
    (fit_windows (intSeries 12) 1 5).length = 6
    ∧ (fit_windows (intSeries 12) 1 5).length ≠ 5 := by
  refine ⟨by decide, by decide⟩

/-- C3 amended: with num_batches supplied and batch_size =
floor(n / num_batches) positive, train is called once per offset of
range(order, n, batch_size) in increasing offset order — that is
ceil((n - order) / batch_size) windows, which need not equal
num_batches — and the k-th window is the slice
[order + k * batch_size - order, order + k * batch_size + batch_size)
of the data (clamped at the data end), i.e. it spans
[offset - order, offset + batch_size); in particular for n = 100,
order = 2, num_batches = 10 the offsets are 2, 12, ..., 92. -/
theorem C3_fit_windows_amended (data : List Int) (order nb : Nat)
    (hbs : 0 < data.length / nb) :
    ((fit_windows data order nb).length
        = (data.length - order + data.length / nb - 1) / (data.length / nb))
    ∧ (∀ k, k < (fit_windows data order nb).length →
        (fit_windows data order nb).getD k []
          = (data.drop (k * (data.length / nb))).take (data.length / nb + order))
    ∧ pyRange 2 100 10 = [2, 12, 22, 32, 42, 52, 62, 72, 82, 92] := by
  refine ⟨by simp [fit_windows, pyRange], ?_, by decide⟩
  intro k hk
  have hk2 : k < (data.length - order + data.length / nb - 1) / (data.length / nb) := by
    simpa [fit_windows, pyRange] using hk
  unfold fit_windows
  rw [getD_map_of_lt _ _ _ (by rw [pyRange_length]; exact hk2) [] 0]
  rw [pyRange_getD _ _ _ _ hk2]
  unfold fit_window
  rw [Nat.add_sub_cancel_left]
  congr 1
  omega

/-- Witness for C3 amended at the concrete instance n = 100,
order = 2, num_batches = 10 from the spec: the last window (k = 9,
offset 92) is the slice starting at 9 * 10 = 90 of length
10 + 2 = 12 (clamped to the data end). -/
theorem C3_fit_windows_amended_witness :
    0 < (intSeries 100).length / 10
    ∧ (fit_windows (intSeries 100) 2 10).getD 9 []
        = ((intSeries 100).drop (9 * ((intSeries 100).length / 10))).take
            ((intSeries 100).length / 10 + 2) :=
  ⟨by decide,
   (C3_fit_windows_amended (intSeries 100) 2 10 (by decide)).2.1 9 (by decide)⟩

/-- Helper: one more loop iteration calls the one-step forecast on the
tail slice of the current working list and appends the resulting
scalar to both the output and the working list. -/
lemma forecast_ahead_loop_snoc (fc : List Int → List Int) (ml : Nat) :
    ∀ (k : Nat) (ret data : List Int),
      forecast_ahead_loop fc ml (k + 1) ret data
        = ((forecast_ahead_loop fc ml k ret data).1
             ++ [(fc (pyTail (forecast_ahead_loop fc ml k ret data).2 ml)).getLastD 0],
           (forecast_ahead_loop fc ml k ret data).2
             ++ [(fc (pyTail (forecast_ahead_loop fc ml k ret data).2 ml)).getLastD 0]) := by
  intro k
  induction k with
  | zero => intro ret data; rfl
  | succ k ih =>
    intro ret data
    exact ih (ret ++ [(fc (pyTail data ml)).getLastD 0])
      (data ++ [(fc (pyTail data ml)).getLastD 0])

/-- Helper: the loop under a constant one-step stub appends k copies
of the constant to both accumulators. -/
lemma forecast_ahead_loop_const (c : Int) (ml : Nat) :
    ∀ (k : Nat) (ret data : List Int),
      forecast_ahead_loop (fun _ => [c]) ml k ret data
        = (ret ++ List.replicate k c, data ++ List.replicate k c) := by
  intro k
  induction k with
  | zero => intro ret data; simp [forecast_ahead_loop]
  | succ k ih =>
    intro ret data
    have h1 : forecast_ahead_loop (fun _ => [c]) ml (k + 1) ret data
        = forecast_ahead_loop (fun _ => [c]) ml k (ret ++ [c]) (data ++ [c]) := rfl
    rw [h1, ih]
    simp [List.replicate_succ]

/-- Helper: the output accumulator is only appended to, and the
working list does not depend on it. -/
lemma forecast_ahead_loop_ret (fc : List Int → List Int) (ml : Nat) :
    ∀ (k : Nat) (r1 r2 data : List Int),
      (forecast_ahead_loop fc ml k (r1 ++ r2) data).1
          = r1 ++ (forecast_ahead_loop fc ml k r2 data).1
      ∧ (forecast_ahead_loop fc ml k (r1 ++ r2) data).2
          = (forecast_ahead_loop fc ml k r2 data).2 := by
  intro k
  induction k with
  | zero => intro r1 r2 data; exact ⟨rfl, rfl⟩
  | succ k ih =>
    intro r1 r2 data
    have h1 : forecast_ahead_loop fc ml (k + 1) (r1 ++ r2) data
        = forecast_ahead_loop fc ml k (r1 ++ r2 ++ [(fc (pyTail data ml)).getLastD 0])
            (data ++ [(fc (pyTail data ml)).getLastD 0]) := rfl
    have h2 : forecast_ahead_loop fc ml (k + 1) r2 data
        = forecast_ahead_loop fc ml k (r2 ++ [(fc (pyTail data ml)).getLastD 0])
            (data ++ [(fc (pyTail data ml)).getLastD 0]) := rfl
    rw [h1, h2, List.append_assoc]
    exact ih r1 (r2 ++ [(fc (pyTail data ml)).getLastD 0])
      (data ++ [(fc (pyTail data ml)).getLastD 0])

/-- Helper: the final working list is the initial one followed by the
produced output. -/
lemma forecast_ahead_loop_data (fc : List Int → List Int) (ml : Nat) :
    ∀ (k : Nat) (data : List Int),
      (forecast_ahead_loop fc ml k [] data).2
        = data ++ (forecast_ahead_loop fc ml k [] data).1 := by
  intro k
  induction k with
  | zero => intro data; simp [forecast_ahead_loop]
  | succ k ih =>
    intro data
    have h1 : forecast_ahead_loop fc ml (k + 1) [] data
        = forecast_ahead_loop fc ml k ([(fc (pyTail data ml)).getLastD 0] ++ [])
            (data ++ [(fc (pyTail data ml)).getLastD 0]) := rfl
    rw [h1]
    rcases forecast_ahead_loop_ret fc ml k [(fc (pyTail data ml)).getLastD 0] []
      (data ++ [(fc (pyTail data ml)).getLastD 0]) with ⟨hr1, hr2⟩
    rw [hr1, hr2, ih]
    simp

/-- Helper: the loop produces exactly one output element per step. -/
lemma forecast_ahead_loop_length (fc : List Int → List Int) (ml : Nat) :
    ∀ (k : Nat) (ret data : List Int),
      (forecast_ahead_loop fc ml k ret data).1.length = ret.length + k := by
  intro k
  induction k with
  | zero => intro ret data; rfl
  | succ k ih =>
    intro ret data
    have h1 : forecast_ahead_loop fc ml (k + 1) ret data
        = forecast_ahead_loop fc ml k (ret ++ [(fc (pyTail data ml)).getLastD 0])
            (data ++ [(fc (pyTail data ml)).getLastD 0]) := rfl
    rw [h1, ih]
    simp
    omega

/-- C6: forecast_ahead against a one-step stub that always returns the
constant c yields an output of exactly length steps with every element
equal to c, growing the working list by exactly one element per step
(the final working list is the input followed by the forecasts, so
later iterations see earlier forecasts as history); and, for any
one-step forecast, each additional step invokes it on the last max_lag
elements of the current working list and appends the resulting scalar
(the final element of the one-step result) to both the output and the
working list. -/
theorem C6_forecast_ahead_constant_stub (c : Int) (steps max_lag : Nat)
    (data : List Int) (_h1 : 1 ≤ steps) (_h2 : max_lag ≤ data.length) :
    (forecast_ahead (fun _ => [c]) max_lag data steps).1 = List.replicate steps c
    ∧ (forecast_ahead (fun _ => [c]) max_lag data steps).1.length = steps
    ∧ (forecast_ahead (fun _ => [c]) max_lag data steps).2
        = data ++ List.replicate steps c
    ∧ ∀ (fc : List Int → List Int) (k : Nat) (d0 : List Int),
        forecast_ahead fc max_lag d0 (k + 1)
          = ((forecast_ahead fc max_lag d0 k).1
               ++ [(fc (pyTail (forecast_ahead fc max_lag d0 k).2 max_lag)).getLastD 0],
             (forecast_ahead fc max_lag d0 k).2
               ++ [(fc (pyTail (forecast_ahead fc max_lag d0 k).2 max_lag)).getLastD 0]) := by
  refine ⟨?_, ?_, ?_, ?_⟩
  · show (forecast_ahead_loop (fun _ => [c]) max_lag steps [] data).1 = _
    rw [forecast_ahead_loop_const]
    simp
  · show (forecast_ahead_loop (fun _ => [c]) max_lag steps [] data).1.length = _
    rw [forecast_ahead_loop_length]
    simp
  · show (forecast_ahead_loop (fun _ => [c]) max_lag steps [] data).2 = _
    rw [forecast_ahead_loop_const]
  · intro fc k d0
    exact forecast_ahead_loop_snoc fc max_lag k [] d0

/-- Witness for C6 at c = 7, steps = 3, max_lag = 2, data = [1, 2]. -/
theorem C6_forecast_ahead_constant_stub_witness :
    (1 ≤ 3 ∧ 2 ≤ ([1, 2] : List Int).length)
    ∧ (forecast_ahead (fun _ => [(7 : Int)]) 2 [1, 2] 3).1 = [7, 7, 7]
    ∧ (forecast_ahead (fun _ => [(7 : Int)]) 2 [1, 2] 3).2 = [1, 2, 7, 7, 7] := by
  have h := C6_forecast_ahead_constant_stub 7 3 2 [1, 2] (by decide) (by decide)
  refine ⟨⟨by decide, by decide⟩, ?_, ?_⟩
  · rw [h.1]; rfl
  · rw [h.2.2.1]; rfl

/-- C9 (frame effect): for every one-step forecast, max_lag, input
list and step count, the working list after forecast_ahead — which
models the caller's list argument, extended in place by the Python
loop — equals the caller's input followed by exactly the forecast
output values in order, the output having exactly steps elements; the
input prefix is preserved, not copied. -/
theorem C9_forecast_ahead_mutates_data (fc : List Int → List Int) (max_lag : Nat)
    (data : List Int) (steps : Nat) :
    (forecast_ahead fc max_lag data steps).2
        = data ++ (forecast_ahead fc max_lag data steps).1
    ∧ (forecast_ahead fc max_lag data steps).1.length = steps := by
  constructor
  · exact forecast_ahead_loop_data fc max_lag steps data
  · show (forecast_ahead_loop fc max_lag steps [] data).1.length = steps
    rw [forecast_ahead_loop_length]
    simp

/-- C4: for steps_ahead greater than 1, the non-distributed predict
dispatches point, interval and distribution to the matching multi-step
operation on the preprocessed data with the requested steps_ahead as
the steps argument, but the multivariate branch (fts.py line 143)
invokes forecast_ahead_multivariate WITHOUT the steps argument its
signature (line 250) requires — the invocation it performs differs
from the claimed invocation at every steps value (and is a TypeError
when executed). -/
theorem C4_predict_ahead_dispatch (pre : List Int → List Int) (d : List Int)
    (s : Int) (hs : 1 < s) :
    predict pre (some "point") (some s) d
        = .ok (.forecast_ahead (pre d) s)
    ∧ predict pre (some "interval") (some s) d
        = .ok (.forecast_ahead_interval (pre d) s)
    ∧ predict pre (some "distribution") (some s) d
        = .ok (.forecast_ahead_distribution (pre d) s)
    ∧ predict pre (some "multivariate") (some s) d
        = .ok (.forecast_ahead_multivariate_nosteps (pre d))
    ∧ ∀ s2 : Int, ForecastCall.forecast_ahead_multivariate_nosteps (pre d)
        ≠ ForecastCall.forecast_ahead_multivariate (pre d) s2 := by
  have hs1 : s ≠ 1 := by omega
  refine ⟨?_, ?_, ?_, ?_, ?_⟩ <;>
    simp [predict, dispatch_one, dispatch_ahead, recognized_types, hs1, hs]

/-- Witness for C4 at s = 2, identity preprocessing, data [0]. -/
theorem C4_predict_ahead_dispatch_witness :
    (1 : Int) < 2
    ∧ predict id (some "multivariate") (some 2) [0]
        = .ok (.forecast_ahead_multivariate_nosteps [0])
    ∧ predict id (some "point") (some 2) [0] = .ok (.forecast_ahead [0] 2) := by
  have h := C4_predict_ahead_dispatch id [0] 2 (by decide)
  exact ⟨by decide, h.2.2.2.1, h.1⟩

/-- C7: the non-distributed predict with a type option outside the
four recognized values fails with the ValueError at fts.py lines
145-146 (naming the type argument) for every steps_ahead option, and
produces no forecast result. -/
theorem C7_predict_invalid_type (pre : List Int → List Int) (ty : String)
    (steps_ahead : Option Int) (d : List Int)
    (h : recognized_types.contains ty = false) :
    predict pre (some ty) steps_ahead d = .error .invalidType := by
  simp only [predict, Option.getD_some, h]
  rfl

/-- Witness for C7 at the unrecognized type "banana". -/
theorem C7_predict_invalid_type_witness :
    recognized_types.contains "banana" = false
    ∧ predict id (some "banana") none [] = .error .invalidType :=
  ⟨by decide, C7_predict_invalid_type id "banana" none [] (by decide)⟩

/-- C10: for every recognized type and every steps_ahead explicitly
set to a value that is neither 1 nor greater than 1, no dispatch
branch assigns a forecast result and the non-distributed predict fails
with the undefined-result error (the UnboundLocalError raised when
postprocessing at fts.py line 157 reads the never-assigned ret),
rather than returning a forecast or raising a descriptive error. -/
theorem C10_predict_steps_ahead_gap (pre : List Int → List Int) (ty : String)
    (s : Int) (d : List Int) (hty : recognized_types.contains ty = true)
    (h1 : s ≠ 1) (h2 : ¬ 1 < s) :
    predict pre (some ty) (some s) d = .error .undefinedResult := by
  simp [predict, h1, h2]
  simpa using hty

/-- Witness for C10 at type point and steps_ahead 0. -/
theorem C10_predict_steps_ahead_gap_witness :
    recognized_types.contains "point" = true
    ∧ (0 : Int) ≠ 1
    ∧ ¬ (1 : Int) < 0
    ∧ predict id (some "point") (some 0) [] = .error .undefinedResult :=
  ⟨by decide, by decide, by decide,
   C10_predict_steps_ahead_gap id "point" 0 [] (by decide) (by decide) (by decide)⟩

end PyFTS
